import Mathlib

/-!
# Verification of the agent-autopsy-firewall episode store and recorder

Shallow embedding of the repository's core Python modules
(`src/autopsy/store.py`, `src/autopsy/recorder.py`) into Lean 4, together
with theorems settling the frozen claims about the specification.

Modelling conventions:

* Python `str` is modelled by Lean `String`; operations that inspect
  characters work on `String.data : List Char`.
* Python `float` (IEEE-754 binary64) values are modelled as the exact
  rational numbers they denote; the arithmetic operations `*`, `/`, and
  `math.sqrt` are modelled as the exact operation followed by rounding to
  53 significant bits, round-to-nearest ties-to-even, as IEEE-754 and the
  C library prescribe.  Overflow, underflow and NaN do not arise in the
  quantities produced by this code for any input of sane size, so the
  model does not represent them.
* Python `int` is modelled by `Nat`/`Int` (arbitrary precision, exact).
* Fallible control flow is modelled with explicit error values.
-/

set_option allowUnsafeReducibility true
set_option maxRecDepth 100000
attribute [local semireducible] Rat.mul Rat.div Rat.add Rat.sub Rat.neg Rat.inv

namespace Autopsy

/-! ## Kernel-friendly arithmetic helpers

The standard `Nat.log`, `Nat.sqrt` and `Int.floor` are defined by
well-founded recursion, which the kernel cannot evaluate, so concrete
theorem instances could not be checked by `decide`.  The helpers below
compute the same functions by structural recursion on an explicit
iteration bound that always dominates the number of iterations, so the
recursion never runs out and the functions agree with the standard ones
everywhere. -/

/-- `log2Aux fuel n` = ⌊log₂ n⌋ for `n ≥ 1`, provided `fuel ≥ log₂ n`;
each step halves `n`, so `fuel = n` always suffices. -/
def log2Aux : ℕ → ℕ → ℕ
  | 0, _ => 0
  | fuel + 1, n => if n ≤ 1 then 0 else log2Aux fuel (n / 2) + 1

/-- `⌊log₂ n⌋` (0 for `n = 0`), as `Nat.log 2`. -/
def natLog2 (n : ℕ) : ℕ := log2Aux n n

/-- Newton iteration for the integer square root, as in
`Nat.sqrt.iter`; the guess strictly decreases at every recursive step
and starts at `n / 2`, so `fuel = n` always suffices. -/
def sqrtAux : ℕ → ℕ → ℕ → ℕ
  | 0, _, guess => guess
  | fuel + 1, n, guess =>
    let next := (guess + n / guess) / 2
    if next < guess then sqrtAux fuel n next else guess

/-- `⌊√n⌋`, as `Nat.sqrt` (same Newton iteration). -/
def natSqrt (n : ℕ) : ℕ := if n ≤ 1 then n else sqrtAux n n (n / 2)

/-- `⌊q⌋` for a rational: floor division of numerator by denominator. -/
def qfloor (q : ℚ) : ℤ := Int.fdiv q.num q.den

/-! ## IEEE-754 binary64 model

`fround` rounds an exact rational to the nearest binary64 value
(53 significant bits, ties to even), returning the rational the resulting
double denotes.  `fmul`, `fdiv`, `fsqrt` are the correctly rounded
operations; CPython's `float` multiplication and true division and
`math.sqrt` are exactly these on finite non-overflowing data. -/

namespace FP

/-- `2 ^ e` as a rational, for an integer (possibly negative) exponent. -/
def pow2 : ℤ → ℚ
  | .ofNat n => (2 : ℚ) ^ n
  | .negSucc n => ((2 : ℚ) ^ (n + 1))⁻¹

/-- The binade exponent of a positive rational: the unique `e` with
`2 ^ e ≤ q < 2 ^ (e + 1)`. -/
def qexp (q : ℚ) : ℤ :=
  let e0 : ℤ := (natLog2 q.num.natAbs : ℤ) - (natLog2 q.den : ℤ)
  if q < pow2 e0 then e0 - 1 else e0

/-- Round a positive rational to the nearest 53-bit floating-point value,
ties to even.  Returns the exact rational value of the rounded result. -/
def roundPos (q : ℚ) : ℚ :=
  let e := qexp q
  let t : ℚ := q * pow2 (52 - e)
  let n : ℤ := qfloor t
  let r : ℚ := t - (n : ℚ)
  let m : ℤ := if 1 / 2 < r ∨ (r = 1 / 2 ∧ n % 2 ≠ 0) then n + 1 else n
  (m : ℚ) * pow2 (e - 52)

/-- Round any rational to the nearest binary64 value (ties to even). -/
def fround (q : ℚ) : ℚ :=
  if 0 < q then roundPos q else if q < 0 then -roundPos (-q) else 0

/-- Correctly rounded square root of a nonnegative rational, i.e. the
binary64 value of `math.sqrt` applied to a double of exact value `q`. -/
def sqrtPos (q : ℚ) : ℚ :=
  let eq := qexp q
  let E : ℤ := Int.fdiv eq 2
  let k : ℤ := 52 - E
  let s : ℚ := q * pow2 (2 * k)
  let a : ℕ := s.num.natAbs
  let b : ℕ := s.den
  let n : ℕ := natSqrt (a * b) / b
  let m : ℕ :=
    if ((2 * n + 1 : ℕ) : ℚ) ^ 2 < 4 * s then n + 1
    else if ((2 * n + 1 : ℕ) : ℚ) ^ 2 = 4 * s then (if n % 2 = 0 then n else n + 1)
    else n
  (m : ℚ) * pow2 (E - 52)

/-- `math.sqrt` on a nonnegative double. -/
def fsqrt (q : ℚ) : ℚ := if 0 < q then sqrtPos q else 0

/-- Binary64 multiplication: exact product, then rounding. -/
def fmul (x y : ℚ) : ℚ := fround (x * y)

/-- Binary64 true division: exact quotient, then rounding.  The sources
guard every division against a zero divisor; the `y = 0` case is dead. -/
def fdiv (x y : ℚ) : ℚ := if y = 0 then 0 else fround (x / y)

/-- Conversion of a Python `int` to a double (rounds when above `2 ^ 53`). -/
def natToF (n : ℕ) : ℚ := fround (n : ℚ)

end FP

/-! ## SHA-256

`store.hash_signature` feeds `task.encode()` then `plan.encode()` into a
`hashlib.sha256` object and returns the hex digest.  `str.encode()` is
UTF-8.  The hash is implemented here in full (FIPS 180-4), on `Nat` with
explicit reduction modulo `2 ^ 32`. -/

namespace SHA256

/-- Truncate to a 32-bit word. -/
def w32 (n : ℕ) : ℕ := n % 4294967296

/-- Right rotation of a 32-bit word by `r` bits. -/
def rotr (r x : ℕ) : ℕ := w32 ((x >>> r) + (x % 2 ^ r) * 2 ^ (32 - r))

/-- Bitwise complement of a 32-bit word. -/
def bnot (x : ℕ) : ℕ := 4294967295 - x % 4294967296

def ch (x y z : ℕ) : ℕ := (x &&& y) ^^^ (bnot x &&& z)

def maj (x y z : ℕ) : ℕ := (x &&& y) ^^^ (x &&& z) ^^^ (y &&& z)

def bsig0 (x : ℕ) : ℕ := rotr 2 x ^^^ rotr 13 x ^^^ rotr 22 x

def bsig1 (x : ℕ) : ℕ := rotr 6 x ^^^ rotr 11 x ^^^ rotr 25 x

def ssig0 (x : ℕ) : ℕ := rotr 7 x ^^^ rotr 18 x ^^^ (x >>> 3)

def ssig1 (x : ℕ) : ℕ := rotr 17 x ^^^ rotr 19 x ^^^ (x >>> 10)

/-- The 64 round constants of FIPS 180-4 (decimal). -/
def K : List ℕ :=
  [1116352408, 1899447441, 3049323471, 3921009573, 961987163,
   1508970993, 2453635748, 2870763221, 3624381080, 310598401,
   607225278, 1426881987, 1925078388, 2162078206, 2614888103,
   3248222580, 3835390401, 4022224774, 264347078, 604807628,
   770255983, 1249150122, 1555081692, 1996064986, 2554220882,
   2821834349, 2952996808, 3210313671, 3336571891, 3584528711,
   113926993, 338241895, 666307205, 773529912, 1294757372,
   1396182291, 1695183700, 1986661051, 2177026350, 2456956037,
   2730485921, 2820302411, 3259730800, 3345764771, 3516065817,
   3600352804, 4094571909, 275423344, 430227734, 506948616,
   659060556, 883997877, 958139571, 1322822218, 1537002063,
   1747873779, 1955562222, 2024104815, 2227730452, 2361852424,
   2428436474, 2756734187, 3204031479, 3329325298]

/-- The initial hash value of FIPS 180-4 (decimal). -/
def H0 : List ℕ :=
  [1779033703, 3144134277, 1013904242, 2773480762, 1359893119,
   2600822924, 528734635, 1541459225]

/-- Big-endian bytes of `n`, `k` bytes wide. -/
def beBytes (k n : ℕ) : List ℕ :=
  match k with
  | 0 => []
  | k + 1 => beBytes k (n / 256) ++ [n % 256]

/-- Pad a byte message per FIPS 180-4: append `0x80`, zeros, then the
bit length as a 64-bit big-endian integer, to a multiple of 64 bytes. -/
def pad (msg : List ℕ) : List ℕ :=
  let z : ℕ := (119 - msg.length % 64) % 64
  msg ++ 0x80 :: List.replicate z 0 ++ beBytes 8 (msg.length * 8)

/-- Split into 64-byte chunks.  Structural recursion on an iteration
bound: each step consumes 64 bytes, so `fuel = l.length` suffices. -/
def chunksAux : ℕ → List ℕ → List (List ℕ)
  | 0, _ => []
  | fuel + 1, l => if l.isEmpty then [] else l.take 64 :: chunksAux fuel (l.drop 64)

def chunks (l : List ℕ) : List (List ℕ) := chunksAux l.length l

/-- Combine four consecutive bytes into big-endian 32-bit words. -/
def toWords : List ℕ → List ℕ
  | b0 :: b1 :: b2 :: b3 :: rest =>
      (((b0 * 256 + b1) * 256 + b2) * 256 + b3) :: toWords rest
  | _ => []

/-- Extend 16 message words to the 64-entry schedule. -/
def schedule (ws : Array ℕ) : Array ℕ :=
  (List.range 48).foldl
    (fun ws i =>
      let t := i + 16
      let w := w32 (ssig1 (ws.getD (t - 2) 0) + ws.getD (t - 7) 0 +
                    ssig0 (ws.getD (t - 15) 0) + ws.getD (t - 16) 0)
      ws.push w)
    ws

/-- One round of the compression function on the 8-word state. -/
def round (st : List ℕ) (kw : ℕ × ℕ) : List ℕ :=
  match st with
  | [a, b, c, d, e, f, g, h] =>
      let t1 := w32 (h + bsig1 e + ch e f g + kw.1 + kw.2)
      let t2 := w32 (bsig0 a + maj a b c)
      [w32 (t1 + t2), a, b, c, w32 (d + t1), e, f, g]
  | st => st

/-- Process one 64-byte chunk. -/
def compress (h : List ℕ) (chunk : List ℕ) : List ℕ :=
  let ws := schedule (toWords chunk).toArray
  let st := (K.zip ws.toList |>.map fun p => (p.2, p.1)).foldl round h
  (h.zip st).map fun p => w32 (p.1 + p.2)

/-- SHA-256 digest (32 bytes) of a byte message. -/
def sha256 (msg : List ℕ) : List ℕ :=
  ((chunks (pad msg)).foldl compress H0).flatMap (beBytes 4)

/-- Lower-case hex character for a nibble. -/
def hexChar (n : ℕ) : Char :=
  if n < 10 then Char.ofNat (48 + n) else Char.ofNat (87 + n)

/-- Lower-case hex string of a byte list (`hexdigest`). -/
def hexDigest (bytes : List ℕ) : String :=
  ⟨bytes.flatMap fun b => [hexChar (b / 16), hexChar (b % 16)]⟩

end SHA256

/-! ## Python strings: UTF-8 encoding -/

/-- UTF-8 encoding of one code point (`str.encode()` on a single char). -/
def utf8Char (c : Char) : List ℕ :=
  let n := c.toNat
  if n < 0x80 then [n]
  else if n < 0x800 then [0xC0 + n / 0x40, 0x80 + n % 0x40]
  else if n < 0x10000 then
    [0xE0 + n / 0x1000, 0x80 + n / 0x40 % 0x40, 0x80 + n % 0x40]
  else
    [0xF0 + n / 0x40000, 0x80 + n / 0x1000 % 0x40, 0x80 + n / 0x40 % 0x40, 0x80 + n % 0x40]

/-- `str.encode()`: UTF-8 bytes of a Python string. -/
def pyEncode (s : String) : List ℕ := s.data.flatMap utf8Char

/-- `store.hash_signature` (store.py:47-51): one `hashlib.sha256` object is
updated with `task.encode()` then `plan.encode()` — that is, it hashes the
concatenation of the two byte strings — and the hex digest is returned. -/
def hash_signature (task plan : String) : String :=
  SHA256.hexDigest (SHA256.sha256 (pyEncode task ++ pyEncode plan))

/-! ## Python strings: `str.lower()` and `\w`

The similarity and classification code lowercases text and splits it on
`re.findall(r'\w+', ...)`.  Both are Unicode operations; the model below
is exact on all code points up to `U+00FF` (Basic Latin and Latin-1),
which covers every character any theorem in this file evaluates them on.
`str.lower()` maps the ASCII uppercase letters and the Latin-1 uppercase
letters `À`–`Þ` (except `×`) 32 code points up; below `U+0100` every other
code point is fixed.  Python's `\w` (Unicode mode) matches, below
`U+0100`: the ASCII letters, digits and `_`, and the Latin-1 letters and
numeric signs `ª ² ³ µ ¹ º ¼ ½ ¾` and `À`–`ÿ` except `×` and `÷`. -/

/-- `str.lower()`, per code point (exact below `U+0100`). -/
def pyLowerChar (c : Char) : Char :=
  let n := c.toNat
  if 65 ≤ n ∧ n ≤ 90 then Char.ofNat (n + 32)
  else if 192 ≤ n ∧ n ≤ 222 ∧ n ≠ 215 then Char.ofNat (n + 32)
  else c

/-- Python's regex class `\w` (exact below `U+0100`). -/
def pyIsWordChar (c : Char) : Bool :=
  let n := c.toNat
  decide ((97 ≤ n ∧ n ≤ 122) ∨ (65 ≤ n ∧ n ≤ 90) ∨ (48 ≤ n ∧ n ≤ 57) ∨ n = 95 ∨
    n = 0xAA ∨ n = 0xB2 ∨ n = 0xB3 ∨ n = 0xB5 ∨ n = 0xB9 ∨ n = 0xBA ∨
    n = 0xBC ∨ n = 0xBD ∨ n = 0xBE ∨
    (0xC0 ≤ n ∧ n ≤ 0xFF ∧ n ≠ 0xD7 ∧ n ≠ 0xF7))

/-- The ASCII-only word class `[A-Za-z0-9_]` named by the specification. -/
def asciiIsWordChar (c : Char) : Bool :=
  let n := c.toNat
  decide ((97 ≤ n ∧ n ≤ 122) ∨ (65 ≤ n ∧ n ≤ 90) ∨ (48 ≤ n ∧ n ≤ 57) ∨ n = 95)

/-- Maximal runs of characters satisfying `p`, in order of occurrence:
the semantics of `re.findall(r'\w+', text)` for a one-class pattern.
`acc` holds the current run, reversed. -/
def wordRunsAux (p : Char → Bool) : List Char → List Char → List (List Char)
  | [], acc => if acc.isEmpty then [] else [acc.reverse]
  | c :: rest, acc =>
      if p c then wordRunsAux p rest (c :: acc)
      else if acc.isEmpty then wordRunsAux p rest []
      else acc.reverse :: wordRunsAux p rest []

def wordRuns (p : Char → Bool) (l : List Char) : List String :=
  (wordRunsAux p l []).map fun r => ⟨r⟩

/-- `str.lower()` on a whole string. -/
def pyLower (s : String) : List Char := s.data.map pyLowerChar

/-- `store.tokenize` (store.py:54-56): `re.findall(r'\w+', text.lower())`. -/
def tokenize (text : String) : List String :=
  wordRuns pyIsWordChar (pyLower text)

/-- Tokenizer that the claim describes: maximal `[A-Za-z0-9_]` runs of the
lowercased input.  Stated from the specification's words, for comparison
with `tokenize`. -/
def claimTokenize (text : String) : List String :=
  wordRuns asciiIsWordChar (pyLower text)

/-! ## Failure classifier and advisor (recorder.py:17-46) -/

/-- Literal substring search on character lists.  Every pattern in
`classify_failure`'s table is a regex without metacharacters, so
`re.search(r, s)` is exactly substring containment. -/
def containsSub (needle : List Char) : List Char → Bool
  | [] => needle.isEmpty
  | c :: rest => needle.isPrefixOf (c :: rest) || containsSub needle rest

def timeoutPatterns : List String := ["timeout", "timed out", "deadline"]

def permissionPatterns : List String :=
  ["permission denied", "403", "access denied", "unauthorized"]

def validationPatterns : List String :=
  ["validation error", "invalid", "pydantic", "schema mismatch"]

def networkPatterns : List String :=
  ["connection failed", "dns", "502", "503", "504", "socket error"]

def notFoundPatterns : List String := ["not found", "404", "no such file"]

def logicPatterns : List String :=
  ["assertionerror", "logic error", "valueerror", "typeerror"]

/-- The ordered pattern table of `classify_failure` (recorder.py:19-26).
Python dicts iterate in insertion order, so the list order below is the
evaluation order. -/
def failurePatterns : List (String × List String) :=
  [("TIMEOUT", timeoutPatterns),
   ("PERMISSION", permissionPatterns),
   ("VALIDATION", validationPatterns),
   ("NETWORK", networkPatterns),
   ("NOT_FOUND", notFoundPatterns),
   ("LOGIC", logicPatterns)]

/-- Does any pattern of the list occur in the (already lowercased) text? -/
def matchesAny (pats : List String) (low : List Char) : Bool :=
  pats.any fun p => containsSub p.data low

/-- First-match lookup over an ordered pattern table. -/
def classifyGo (low : List Char) : List (String × List String) → String
  | [] => "UNKNOWN"
  | (kind, pats) :: rest =>
      if matchesAny pats low then kind else classifyGo low rest

/-- `recorder.classify_failure` (recorder.py:17-32): lowercase the message,
return the first category of the ordered table with a matching pattern,
`"UNKNOWN"` if none matches. -/
def classify_failure (err_msg : String) : String :=
  classifyGo (pyLower err_msg) failurePatterns

/-- `recorder.get_surgical_advice` (recorder.py:35-46): lookup table from
failure kind to advice text, defaulting to the `"UNKNOWN"` entry. -/
def adviceTable : List (String × String) :=
  [("TIMEOUT", "Consider increasing the timeout parameter or checking system load."),
   ("PERMISSION", "Verify file permissions, environment variables, or API tokens."),
   ("VALIDATION", "Check if the input schema has changed or if required fields are missing."),
   ("NETWORK", "Check connectivity or retry with an exponential backoff."),
   ("NOT_FOUND", "Verify file paths or endpoint URLs. Ensure dependent resources exist."),
   ("LOGIC", "Review the core algorithm. Add more logging to trace the state transition."),
   ("UNKNOWN", "Perform a deep autopsy using the trace logs and filesystem diffs.")]

def get_surgical_advice (kind : String) : String :=
  ((adviceTable.lookup kind).getD
    ((adviceTable.lookup "UNKNOWN").getD ""))

/-! ## Insertion-ordered dictionaries

Python dicts preserve insertion order.  They are modelled as association
lists: an update of an existing key replaces the value in place, a new
key is appended. -/

/-- Update the value at `k` with `f (some old)`, or append `(k, f none)`
when `k` is absent: the semantics of `d[k] = f(d.get(k))`. -/
def updBy {κ β : Type} [DecidableEq κ] (l : List (κ × β)) (k : κ) (f : Option β → β) :
    List (κ × β) :=
  match l with
  | [] => [(k, f none)]
  | (k', v) :: t => if k' = k then (k', f (some v)) :: t else (k', v) :: updBy t k f

/-- Insert `x` into a sorted list, before the first element `y` with
`le x y`. -/
def insertSorted {α : Type} (le : α → α → Bool) (x : α) : List α → List α
  | [] => [x]
  | y :: t => if le x y then x :: y :: t else y :: insertSorted le x t

/-- Stable insertion sort.  CPython's `sorted` is a stable sort; a stable
sort's output is determined by the comparison alone, so this computes
exactly what `sorted(...)` returns. -/
def sortBy {α : Type} (le : α → α → Bool) (l : List α) : List α :=
  l.foldr (insertSorted le) []

/-- `collections.Counter` over a token list: token → multiplicity, keys in
first-occurrence order. -/
def counter (toks : List String) : List (String × ℕ) :=
  toks.foldl (fun acc t => updBy acc t (fun o => o.getD 0 + 1)) []

/-- `d.get(t, 0)` on a counter. -/
def countGet (c : List (String × ℕ)) (t : String) : ℕ := (c.lookup t).getD 0

/-- `store.cosine_similarity_pure` (store.py:59-79): bag-of-words cosine
similarity.  Counters are built for both token lists; the dot product and
the squared magnitudes are exact Python ints; each magnitude is
`math.sqrt` of the (converted) int, and the result is the float division
`dot / (mag1 * mag2)`.  The iteration order of the Python `set` of terms
is irrelevant: only the sum is used.  Returns `0.0` when either token
list is empty or (dead code after that guard) when a magnitude is zero. -/
def cosine_similarity_pure (text1 text2 : String) : ℚ :=
  let tokens1 := tokenize text1
  let tokens2 := tokenize text2
  if tokens1.isEmpty ∨ tokens2.isEmpty then 0
  else
    let count1 := counter tokens1
    let count2 := counter tokens2
    let terms := (count1.map Prod.fst ++ count2.map Prod.fst).dedup
    let dot : ℕ := (terms.map fun t => countGet count1 t * countGet count2 t).sum
    let s1 : ℕ := (count1.map fun p => p.2 ^ 2).sum
    let s2 : ℕ := (count2.map fun p => p.2 ^ 2).sum
    let mag1 := FP.fsqrt (FP.natToF s1)
    let mag2 := FP.fsqrt (FP.natToF s2)
    if mag1 = 0 ∨ mag2 = 0 then 0
    else FP.fdiv (FP.natToF dot) (FP.fmul mag1 mag2)

/-! ## `difflib.SequenceMatcher` (used by the `fuzzy` method)

`plan_similarity(a, b, "fuzzy")` is `SequenceMatcher(None, a, b).ratio()`:
`2·M / T` where `M` is the total size of the matching blocks found by the
greedy longest-matching-block recursion and `T = len(a) + len(b)`.
The embedding reproduces `__chain_b` (with `isjunk = None`, so `bjunk` is
empty and the junk-extension loops of `find_longest_match` never fire, but
including the *autojunk* purge of popular elements for `len(b) >= 200`),
`find_longest_match`, and the block recursion of `get_matching_blocks`
(the queue order only affects the order of the collected blocks, which
`ratio` sums; the recursion below collects the same blocks). -/

/-- Ascending list of positions of `c` in `b` (`b2j` entry before purge). -/
def positionsOf (b : List Char) (c : Char) : List ℕ :=
  (b.enum.filter fun p => p.2 = c).map Prod.fst

/-- `__chain_b`: `b2j` with the autojunk purge (`isjunk` is `None`, so no
junk purge).  Popular elements — appearing more than `len(b)//100 + 1`
times when `len(b) >= 200` — get an empty entry. -/
def b2jOf (b : List Char) : Char → List ℕ := fun c =>
  let idxs := positionsOf b c
  if 200 ≤ b.length ∧ idxs.length > b.length / 100 + 1 then [] else idxs

/-- The body of the inner loop of `find_longest_match`, for one position
`j` of `a[i]` within `b`: `k = newj2len[j] = j2len.get(j-1, 0) + 1` (where
`j2len.get(-1, 0)` is `0`), record `k` in the new dict, and take the block
`(i-k+1, j-k+1, k)` as the best when it is strictly longer.  A run ending
at row `i`, column `j` has `k ≤ i+1` and `k ≤ j+1`, so Python's int
expressions `i-k+1` and `j-k+1` are nonnegative and equal the `Nat`
expressions `i+1-k` and `j+1-k` used here. -/
def flmStep (old : ℕ → ℕ) (i : ℕ) (st : (ℕ × ℕ × ℕ) × (ℕ → ℕ)) (j : ℕ) :
    (ℕ × ℕ × ℕ) × (ℕ → ℕ) :=
  let k := (if j = 0 then 0 else old (j - 1)) + 1
  (if st.1.2.2 < k then (i + 1 - k, j + 1 - k, k) else st.1,
   fun x => if x = j then k else st.2 x)

/-- One row `i` of the `find_longest_match` main loop: fold over the
positions of `a[i]` in the window (the `continue`/`break` pair equals the
filter below because `b2j` lists are ascending).  The state carries the
current best block and the new `j2len` dict (a total function defaulting
to `0`, like `dict.get(·, 0)`); `k` reads the previous row's dict. -/
def flmRow (blo bhi i : ℕ) (js : List ℕ) (old : ℕ → ℕ)
    (best : ℕ × ℕ × ℕ) : (ℕ × ℕ × ℕ) × (ℕ → ℕ) :=
  (js.filter fun j => blo ≤ j ∧ j < bhi).foldl (flmStep old i) (best, fun _ => 0)

/-- The main loop of `find_longest_match` over rows `alo..ahi-1`. -/
def flmRows (a : List Char) (b2j : Char → List ℕ) (alo ahi blo bhi : ℕ) :
    (ℕ × ℕ × ℕ) × (ℕ → ℕ) :=
  (List.range' alo (ahi - alo)).foldl
    (fun st i => flmRow blo bhi i (b2j (a.getD i ' ')) st.2 st.1)
    ((alo, blo, 0), fun _ => 0)

/-- The backward extension loop of `find_longest_match` (with `bjunk`
empty, the `not isbjunk` guard is vacuous).  Structural recursion on an
iteration bound: each iteration decrements `besti`, so passing
`fuel = besti` makes the recursion exactly the `while` loop — when fuel
reaches `0` so has `besti`, and the loop guard `besti > alo` is false. -/
def extendBack (a b : List Char) (alo blo : ℕ) : ℕ → ℕ × ℕ × ℕ → ℕ × ℕ × ℕ
  | 0, t => t
  | fuel + 1, (besti, bestj, bestsize) =>
    if alo < besti ∧ blo < bestj ∧ a.getD (besti - 1) ' ' = b.getD (bestj - 1) ' ' then
      extendBack a b alo blo fuel (besti - 1, bestj - 1, bestsize + 1)
    else (besti, bestj, bestsize)

/-- The forward extension loop of `find_longest_match`.  Each iteration
increments `bestsize` while `besti + bestsize < ahi`, so passing
`fuel = ahi - (besti + bestsize)` makes the recursion exactly the
`while` loop — at fuel `0` the guard is false. -/
def extendFwd (a b : List Char) (ahi bhi besti bestj : ℕ) : ℕ → ℕ → ℕ
  | 0, bestsize => bestsize
  | fuel + 1, bestsize =>
    if besti + bestsize < ahi ∧ bestj + bestsize < bhi ∧
        a.getD (besti + bestsize) ' ' = b.getD (bestj + bestsize) ' ' then
      extendFwd a b ahi bhi besti bestj fuel (bestsize + 1)
    else bestsize

/-- `find_longest_match(alo, ahi, blo, bhi)` (with empty `bjunk`, the two
junk-extension loops never fire and are omitted; their guards are
`isbjunk(...)` which is constantly false). -/
def find_longest_match (a b : List Char) (b2j : Char → List ℕ)
    (alo ahi blo bhi : ℕ) : ℕ × ℕ × ℕ :=
  let st := flmRows a b2j alo ahi blo bhi
  let t := extendBack a b alo blo st.1.1 st.1
  (t.1, t.2.1, extendFwd a b ahi bhi t.1 t.2.1 (ahi - (t.1 + t.2.2)) t.2.2)

/-- A block `(i, j, k)` lies inside the window `[alo, ahi) × [blo, bhi)`. -/
def blockValid (alo ahi blo bhi : ℕ) (t : ℕ × ℕ × ℕ) : Prop :=
  alo ≤ t.1 ∧ blo ≤ t.2.1 ∧ t.1 + t.2.2 ≤ ahi ∧ t.2.1 + t.2.2 ≤ bhi

/-- Invariant on the `j2len` dictionary before processing row `i`:
nonzero entries are runs inside the window, no longer than the rows seen
and the columns available. -/
def j2lenInv (blo bhi alo bound : ℕ) (f : ℕ → ℕ) : Prop :=
  ∀ x, f x ≠ 0 → x + 1 ≤ bhi ∧ f x ≤ x + 1 - blo ∧ f x ≤ bound - alo

theorem flmStep_valid {blo bhi i alo ahi : ℕ} (old : ℕ → ℕ)
    (hi : alo ≤ i) (hia : i < ahi)
    (hold : j2lenInv blo bhi alo i old)
    (st : (ℕ × ℕ × ℕ) × (ℕ → ℕ)) (j : ℕ) (hjw : blo ≤ j ∧ j < bhi)
    (hb : blockValid alo ahi blo bhi st.1)
    (hf : j2lenInv blo bhi alo (i + 1) st.2) :
    blockValid alo ahi blo bhi (flmStep old i st j).1 ∧
    j2lenInv blo bhi alo (i + 1) (flmStep old i st j).2 := by
  have hk : ((if j = 0 then 0 else old (j - 1)) + 1) ≤ i + 1 - alo ∧
      ((if j = 0 then 0 else old (j - 1)) + 1) ≤ j + 1 - blo := by
    by_cases h0 : j = 0
    · rw [if_pos h0]
      omega
    · rw [if_neg h0]
      by_cases hz : old (j - 1) = 0
      · rw [hz]
        omega
      · have := hold (j - 1) hz
        omega
  constructor
  · show blockValid alo ahi blo bhi
      (if st.1.2.2 < (if j = 0 then 0 else old (j - 1)) + 1 then
        (i + 1 - ((if j = 0 then 0 else old (j - 1)) + 1),
         j + 1 - ((if j = 0 then 0 else old (j - 1)) + 1),
         (if j = 0 then 0 else old (j - 1)) + 1)
       else st.1)
    by_cases hcond : st.1.2.2 < (if j = 0 then 0 else old (j - 1)) + 1
    · rw [if_pos hcond]
      unfold blockValid
      dsimp only
      omega
    · rw [if_neg hcond]
      exact hb
  · intro x hx
    change (if x = j then (if j = 0 then 0 else old (j - 1)) + 1 else st.2 x) ≠ 0 at hx
    show x + 1 ≤ bhi ∧
        (if x = j then (if j = 0 then 0 else old (j - 1)) + 1 else st.2 x) ≤ x + 1 - blo ∧
        (if x = j then (if j = 0 then 0 else old (j - 1)) + 1 else st.2 x) ≤ i + 1 - alo
    by_cases hxj : x = j
    · rw [if_pos hxj] at hx ⊢
      subst hxj
      exact ⟨by omega, by omega, by omega⟩
    · rw [if_neg hxj] at hx ⊢
      exact hf x hx

theorem flmRowGo_valid {blo bhi i alo ahi : ℕ} (old : ℕ → ℕ)
    (hi : alo ≤ i) (hia : i < ahi)
    (hold : j2lenInv blo bhi alo i old) :
    ∀ (js : List ℕ) (st : (ℕ × ℕ × ℕ) × (ℕ → ℕ)),
      (∀ j ∈ js, blo ≤ j ∧ j < bhi) →
      blockValid alo ahi blo bhi st.1 →
      j2lenInv blo bhi alo (i + 1) st.2 →
      blockValid alo ahi blo bhi ((js.foldl (flmStep old i) st).1) ∧
      j2lenInv blo bhi alo (i + 1) ((js.foldl (flmStep old i) st).2) := by
  intro js
  induction js with
  | nil =>
    intro st _ hb hf
    exact ⟨hb, hf⟩
  | cons j rest ih =>
    intro st hmem hb hf
    have hjw : blo ≤ j ∧ j < bhi := hmem j (by simp)
    have hmem' : ∀ x ∈ rest, blo ≤ x ∧ x < bhi := fun x hx => hmem x (by simp [hx])
    rw [List.foldl_cons]
    have hstep := flmStep_valid old hi hia hold st j hjw hb hf
    exact ih _ hmem' hstep.1 hstep.2

theorem flmRow_valid {blo bhi i alo ahi : ℕ} (js : List ℕ) (old : ℕ → ℕ)
    (best : ℕ × ℕ × ℕ) (hi : alo ≤ i) (hia : i < ahi)
    (hold : j2lenInv blo bhi alo i old)
    (hbest : blockValid alo ahi blo bhi best) :
    blockValid alo ahi blo bhi (flmRow blo bhi i js old best).1 ∧
    j2lenInv blo bhi alo (i + 1) (flmRow blo bhi i js old best).2 := by
  unfold flmRow
  apply flmRowGo_valid old hi hia hold
  · intro j hj
    have := List.of_mem_filter hj
    simpa using this
  · exact hbest
  · intro x hx
    simp at hx

theorem flmRowsGo_valid (a : List Char) (b2j : Char → List ℕ) (blo bhi : ℕ) :
    ∀ (n start alo ahi : ℕ) (st : (ℕ × ℕ × ℕ) × (ℕ → ℕ)),
      start + n = ahi → alo ≤ start →
      blockValid alo ahi blo bhi st.1 →
      j2lenInv blo bhi alo start st.2 →
      blockValid alo ahi blo bhi
        (((List.range' start n).foldl
          (fun st i => flmRow blo bhi i (b2j (a.getD i ' ')) st.2 st.1) st).1) := by
  intro n
  induction n with
  | zero =>
    intro start alo ahi st _ _ hb _
    simpa using hb
  | succ m ih =>
    intro start alo ahi st hsum hle hb hj
    rw [List.range'_succ, List.foldl_cons]
    have hrow := flmRow_valid (b2j (a.getD start ' ')) st.2 st.1 hle (by omega) hj hb
    exact ih (start + 1) alo ahi _ (by omega) (by omega) hrow.1 hrow.2

theorem flmRows_valid (a : List Char) (b2j : Char → List ℕ)
    {alo ahi blo bhi : ℕ} (hab : alo ≤ ahi) (hbb : blo ≤ bhi) :
    blockValid alo ahi blo bhi (flmRows a b2j alo ahi blo bhi).1 := by
  unfold flmRows
  apply flmRowsGo_valid a b2j blo bhi (ahi - alo) alo alo ahi
  · omega
  · omega
  · exact ⟨le_refl _, le_refl _, by simpa using hab, by simpa using hbb⟩
  · intro x hx
    simp at hx

theorem extendBack_valid (a b : List Char) {alo blo ahi bhi : ℕ} :
    ∀ (fuel besti bestj bestsize : ℕ),
      blockValid alo ahi blo bhi (besti, bestj, bestsize) →
      blockValid alo ahi blo bhi (extendBack a b alo blo fuel (besti, bestj, bestsize)) := by
  intro fuel
  induction fuel with
  | zero =>
    intro besti bestj bestsize hv
    exact hv
  | succ m ih =>
    intro besti bestj bestsize hv
    have v1 : alo ≤ besti := hv.1
    have v2 : blo ≤ bestj := hv.2.1
    have v3 : besti + bestsize ≤ ahi := hv.2.2.1
    have v4 : bestj + bestsize ≤ bhi := hv.2.2.2
    show blockValid alo ahi blo bhi
      (if alo < besti ∧ blo < bestj ∧ a.getD (besti - 1) ' ' = b.getD (bestj - 1) ' '
       then extendBack a b alo blo m (besti - 1, bestj - 1, bestsize + 1)
       else (besti, bestj, bestsize))
    split
    · rename_i h
      apply ih (besti - 1) (bestj - 1) (bestsize + 1)
      unfold blockValid
      dsimp only
      omega
    · exact hv

theorem extendFwd_valid (a b : List Char) {ahi bhi : ℕ} (besti bestj : ℕ) :
    ∀ (fuel bestsize : ℕ),
      besti + bestsize ≤ ahi → bestj + bestsize ≤ bhi →
      besti + extendFwd a b ahi bhi besti bestj fuel bestsize ≤ ahi ∧
      bestj + extendFwd a b ahi bhi besti bestj fuel bestsize ≤ bhi := by
  intro fuel
  induction fuel with
  | zero =>
    intro bestsize ha hb
    exact ⟨ha, hb⟩
  | succ m ih =>
    intro bestsize ha hb
    show besti + (if besti + bestsize < ahi ∧ bestj + bestsize < bhi ∧
        a.getD (besti + bestsize) ' ' = b.getD (bestj + bestsize) ' '
      then extendFwd a b ahi bhi besti bestj m (bestsize + 1) else bestsize) ≤ ahi ∧
      bestj + (if besti + bestsize < ahi ∧ bestj + bestsize < bhi ∧
        a.getD (besti + bestsize) ' ' = b.getD (bestj + bestsize) ' '
      then extendFwd a b ahi bhi besti bestj m (bestsize + 1) else bestsize) ≤ bhi
    split
    · rename_i h
      exact ih (bestsize + 1) (by omega) (by omega)
    · exact ⟨ha, hb⟩

/-- The block returned by `find_longest_match` lies inside the window. -/
theorem find_longest_match_valid (a b : List Char) (b2j : Char → List ℕ)
    {alo ahi blo bhi : ℕ} (hab : alo ≤ ahi) (hbb : blo ≤ bhi) :
    blockValid alo ahi blo bhi (find_longest_match a b b2j alo ahi blo bhi) := by
  unfold find_longest_match
  have h1 := flmRows_valid a b2j hab hbb
  have h2 := extendBack_valid a b (flmRows a b2j alo ahi blo bhi).1.1
    (flmRows a b2j alo ahi blo bhi).1.1
    (flmRows a b2j alo ahi blo bhi).1.2.1 (flmRows a b2j alo ahi blo bhi).1.2.2 h1
  have h3 := extendFwd_valid a b
    (extendBack a b alo blo (flmRows a b2j alo ahi blo bhi).1.1 (flmRows a b2j alo ahi blo bhi).1).1
    (extendBack a b alo blo (flmRows a b2j alo ahi blo bhi).1.1 (flmRows a b2j alo ahi blo bhi).1).2.1
    (ahi - ((extendBack a b alo blo (flmRows a b2j alo ahi blo bhi).1.1 (flmRows a b2j alo ahi blo bhi).1).1 +
      (extendBack a b alo blo (flmRows a b2j alo ahi blo bhi).1.1 (flmRows a b2j alo ahi blo bhi).1).2.2))
    (extendBack a b alo blo (flmRows a b2j alo ahi blo bhi).1.1 (flmRows a b2j alo ahi blo bhi).1).2.2
    h2.2.2.1 h2.2.2.2
  exact ⟨h2.1, h2.2.1, h3.1, h3.2⟩

/-- The sum of the sizes of all matching blocks: the recursion of
`get_matching_blocks` (the iterative queue there visits the same disjoint
windows; `ratio` only sums the sizes, so the visit order is irrelevant).
Structural recursion on an iteration bound: a recursive call strictly
shrinks `(ahi - alo) + (bhi - blo)` (by `find_longest_match_valid`), so
any fuel above that measure gives the same result
(`matchTotalAux_fuel`), and `seqMatchTotal` passes such a fuel. -/
def matchTotalAux (a b : List Char) (b2j : Char → List ℕ) :
    ℕ → ℕ → ℕ → ℕ → ℕ → ℕ
  | 0, _, _, _, _ => 0
  | fuel + 1, alo, ahi, blo, bhi =>
    let t := find_longest_match a b b2j alo ahi blo bhi
    if t.2.2 = 0 then 0
    else
      t.2.2 +
      (if alo < t.1 ∧ blo < t.2.1 then matchTotalAux a b b2j fuel alo t.1 blo t.2.1 else 0) +
      (if t.1 + t.2.2 < ahi ∧ t.2.1 + t.2.2 < bhi then
        matchTotalAux a b b2j fuel (t.1 + t.2.2) ahi (t.2.1 + t.2.2) bhi
      else 0)

/-- Fuel irrelevance: any fuel above the window measure computes the same
total, so the bound passed by `seqMatchTotal` is immaterial. -/
theorem matchTotalAux_fuel (a b : List Char) (b2j : Char → List ℕ) :
    ∀ (f1 f2 alo ahi blo bhi : ℕ), alo ≤ ahi → blo ≤ bhi →
      (ahi - alo) + (bhi - blo) < f1 → (ahi - alo) + (bhi - blo) < f2 →
      matchTotalAux a b b2j f1 alo ahi blo bhi = matchTotalAux a b b2j f2 alo ahi blo bhi := by
  intro f1
  induction f1 with
  | zero =>
    intro f2 alo ahi blo bhi _ _ h1 _
    omega
  | succ n ih =>
    intro f2 alo ahi blo bhi hab hbb h1 h2
    obtain ⟨m, rfl⟩ : ∃ m, f2 = m + 1 := ⟨f2 - 1, by omega⟩
    show (let t := find_longest_match a b b2j alo ahi blo bhi
      if t.2.2 = 0 then 0
      else t.2.2 +
        (if alo < t.1 ∧ blo < t.2.1 then matchTotalAux a b b2j n alo t.1 blo t.2.1 else 0) +
        (if t.1 + t.2.2 < ahi ∧ t.2.1 + t.2.2 < bhi then
          matchTotalAux a b b2j n (t.1 + t.2.2) ahi (t.2.1 + t.2.2) bhi else 0)) =
      (let t := find_longest_match a b b2j alo ahi blo bhi
      if t.2.2 = 0 then 0
      else t.2.2 +
        (if alo < t.1 ∧ blo < t.2.1 then matchTotalAux a b b2j m alo t.1 blo t.2.1 else 0) +
        (if t.1 + t.2.2 < ahi ∧ t.2.1 + t.2.2 < bhi then
          matchTotalAux a b b2j m (t.1 + t.2.2) ahi (t.2.1 + t.2.2) bhi else 0))
    have hv := find_longest_match_valid a b b2j hab hbb
    have v1 := hv.1
    have v2 := hv.2.1
    have v3 := hv.2.2.1
    have v4 := hv.2.2.2
    dsimp only
    split
    · rfl
    · rename_i hk
      congr 1
      · congr 1
        split
        · rename_i hg
          exact ih m alo (find_longest_match a b b2j alo ahi blo bhi).1 blo
            (find_longest_match a b b2j alo ahi blo bhi).2.1
            (by omega) (by omega) (by omega) (by omega)
        · rfl
      · split
        · rename_i hg
          exact ih m ((find_longest_match a b b2j alo ahi blo bhi).1 +
              (find_longest_match a b b2j alo ahi blo bhi).2.2) ahi
            ((find_longest_match a b b2j alo ahi blo bhi).2.1 +
              (find_longest_match a b b2j alo ahi blo bhi).2.2) bhi
            (by omega) (by omega) (by omega) (by omega)
        · rfl

/-- Total matched size for `SequenceMatcher(None, a, b)`. -/
def seqMatchTotal (a b : List Char) : ℕ :=
  matchTotalAux a b (b2jOf b) (a.length + b.length + 1) 0 a.length 0 b.length

/-- `difflib._calculate_ratio`: `2.0 * matches / length` (float), `1.0`
for two empty sequences. -/
def calculateRatio (matched total : ℕ) : ℚ :=
  if total ≠ 0 then FP.fdiv (FP.fmul 2 (FP.natToF matched)) (FP.natToF total) else 1

/-- `SequenceMatcher(None, a, b).ratio()`. -/
def sequenceMatcherRatio (a b : String) : ℚ :=
  calculateRatio (seqMatchTotal a.data b.data) (a.data.length + b.data.length)

/-- `store.plan_similarity` (store.py:82-89): `exact` compares for
equality, `cosine` delegates to `cosine_similarity_pure`, every other
method string falls into the `else` branch — the fuzzy
`SequenceMatcher.ratio()`. -/
def plan_similarity (a b : String) (method : String) : ℚ :=
  if method = "exact" then (if a = b then 1 else 0)
  else if method = "cosine" then cosine_similarity_pure a b
  else sequenceMatcherRatio a b

/-! ## Episode store (store.py)

The SQLite table is modelled as a list of rows in insertion order; a
`select ... where` is a filter.  `Episode` mirrors the SQLModel class
field for field (store.py:16-24): note that it has *no* `failure_kind`
field/column. -/

structure Episode where
  id : Option Int
  signature : String
  task : String
  plan : String
  outcome : String
  summary : String
  trace_path : String
  created_at : Int
deriving DecidableEq

/-- The attribute names of `Episode` (store.py:16-24), in declaration
order.  Python resolves `episode.name` only for `name` in this list;
any other access raises `AttributeError`. -/
def episodeFields : List String :=
  ["id", "signature", "task", "plan", "outcome", "summary", "trace_path", "created_at"]

structure EpisodeMatch where
  episode : Episode
  similarity : ℚ
deriving DecidableEq

/-- The parameters of `def record_episode(...)` (store.py:92). -/
def record_episode_params : List String :=
  ["task", "plan", "outcome", "summary", "trace_path", "db_path"]

/-- Python call semantics: a call binds successfully only if every
keyword argument names a declared parameter; otherwise the call raises
`TypeError: ... got an unexpected keyword argument` before the callee's
body runs. -/
def kwargsAccepted (params kwargs : List String) : Bool :=
  kwargs.all fun k => params.contains k

/-- `store.record_episode` (store.py:92-100): computes the signature,
builds the row and appends it; the database assigns the next integer id
and the insertion timestamp (modelled by `nextId`/`now` parameters —
their values are irrelevant to every claim).  Returns the new store and
the persisted row. -/
def record_episode (store : List Episode) (task plan outcome summary trace_path : String)
    (nextId : Int) (now : Int) : List Episode × Episode :=
  let ep : Episode :=
    { id := some nextId, signature := hash_signature task plan, task := task,
      plan := plan, outcome := outcome, summary := summary,
      trace_path := trace_path, created_at := now }
  (store ++ [ep], ep)

/-- The pre-deduplication match list built by `find_failures_like`
(store.py:107-129): phase 1 collects rows with the exact signature and
`outcome == "failure"` at similarity `1.0`; phase 2 (skipped for
`method == "exact"`) walks all failing rows, skips ids already present in
the growing list, scores `"{task} {plan}"` against the query and appends
matches reaching `min_similarity`. -/
def candidateMatches (store : List Episode) (task plan : String)
    (min_similarity : ℚ) (method : String) : List EpisodeMatch :=
  let signature := hash_signature task plan
  let exact_results := store.filter fun ep =>
    ep.signature = signature ∧ ep.outcome = "failure"
  let matches1 := exact_results.map fun ep => ⟨ep, 1⟩
  if method ≠ "exact" then
    let all_eps := store.filter fun ep => ep.outcome = "failure"
    all_eps.foldl
      (fun ms ep =>
        if ms.any fun m => m.episode.id = ep.id then ms
        else
          let ep_full := ep.task ++ " " ++ ep.plan
          let current_full := task ++ " " ++ plan
          let sim := plan_similarity ep_full current_full method
          if min_similarity ≤ sim then ms ++ [⟨ep, sim⟩] else ms)
      matches1
  else matches1

/-- The value stored for an id by the deduplication dict: the incoming
match for a fresh id, otherwise the stored match unless the incoming
similarity is strictly higher (store.py:134). -/
def bestVal (m : EpisodeMatch) : Option EpisodeMatch → EpisodeMatch
  | none => m
  | some cur => if cur.similarity < m.similarity then m else cur

/-- The deduplication dict of `find_failures_like` (store.py:132-135):
`best[id] = m` for the first match with a given episode id, replaced only
by a strictly higher similarity. -/
def bestStep (acc : List (Option Int × EpisodeMatch)) (m : EpisodeMatch) :
    List (Option Int × EpisodeMatch) :=
  updBy acc m.episode.id (bestVal m)

/-- `store.find_failures_like` (store.py:103-137): merge the two phases,
deduplicate by episode id keeping the higher similarity, and sort by
similarity descending — `sorted(..., key=sim, reverse=True)` is the
stable sort under the "greater or equal similarity" comparison. -/
def find_failures_like (store : List Episode) (task plan : String)
    (min_similarity : ℚ) (method : String) : List EpisodeMatch :=
  let ms := candidateMatches store task plan min_similarity method
  let best := ms.foldl bestStep []
  sortBy (fun x y => decide (y.similarity ≤ x.similarity)) (best.map Prod.snd)

/-! ## Recorder (recorder.py)

`Recorder.session` is a generator-based context manager; one complete
`with rec.session(): work()` execution is modelled as a pure function of
the store contents and the outcome of the caller's work.  Filesystem
effects are reported in the result: the trace files written by
`json.dump` (recorder.py:176-184) and the rows inserted through
`record_episode`.  Event payloads (environment snapshots, diffs, stack
traces) are environment data outside this model; an event is modelled by
its `kind` tag. -/

/-- Exceptions that can surface from a session. -/
inductive PyError where
  /-- `TypeError: <fn>() got an unexpected keyword argument <kw>`. -/
  | typeError (fn kw : String)
  /-- `AttributeError: <cls> object has no attribute <attr>`. -/
  | attributeError (cls attr : String)
  /-- `BlockedPlanError` with similarity, prior kind and advice. -/
  | blockedPlanError (similarity : ℚ) (kind advice : String)
  /-- The caller's own exception, re-raised (message). -/
  | workError (msg : String)
deriving DecidableEq

/-- The trace JSON written by `Recorder._persist` (recorder.py:176-184). -/
structure Trace where
  task : String
  plan : String
  outcome : String
  failure_kind : Option String
  summary : String
  events : List String
deriving DecidableEq

/-- Result of the caller-supplied work inside the session. -/
inductive WorkResult where
  | ok
  | raises (msg : String)
deriving DecidableEq

/-- What one session execution did. -/
structure SessionOutcome where
  /-- Trace files written, in order. -/
  traces : List Trace
  /-- Episode rows inserted into the store, in order. -/
  episodes : List Episode
  /-- The recorder's in-memory event buffer at the end (kinds, in order). -/
  events : List String
  /-- `none` when the `with` block completes; the exception otherwise. -/
  raised : Option PyError
deriving DecidableEq

/-- `Recorder._persist` (recorder.py:175-193): `json.dump` writes the
trace file first; then `record_episode(...)` is called with keyword
arguments including `failure_kind=...` (recorder.py:185-193).
`record_episode` (store.py:92) declares no `failure_kind` parameter, so
the call raises `TypeError` after the trace file exists and before any
row is inserted.  (Were the keyword accepted, the row would be inserted
as modelled by `record_episode`.) -/
def persistStep (task plan : String) (events : List String)
    (outcome summary : String) (failure_kind : Option String)
    (store : List Episode) (trace_path : String) (nextId now : Int) :
    Trace × Option Episode × Option PyError :=
  let tr : Trace :=
    { task := task, plan := plan, outcome := outcome,
      failure_kind := failure_kind, summary := summary, events := events }
  if kwargsAccepted record_episode_params
      ["task", "plan", "outcome", "summary", "trace_path", "failure_kind", "db_path"] then
    (tr, some (record_episode store task plan outcome summary trace_path nextId now).2, none)
  else
    (tr, none, some (.typeError "record_episode" "failure_kind"))

/-- One full execution of `with Recorder(...).session(): work`
(recorder.py:109-156).

Gate-check: `find_failures_like` is consulted first.  If the match list
is non-empty, recorder.py:121 evaluates
`best_match.episode.failure_kind or "UNKNOWN"` — but `Episode`
(store.py:16-24) declares no `failure_kind` attribute (see
`episodeFields`), so this attribute access raises `AttributeError`
before the `BlockedPlanError` of recorder.py:127 can be constructed; no
trace file is written and no event is buffered on this path.

Otherwise an `env_snapshot` event is logged and the work runs; on either
completion or exception, `_persist` writes the trace and then calls
`record_episode` with the unexpected `failure_kind` keyword (see
`persistStep`).  On the exception path the `TypeError` from `_persist`
pre-empts the re-raise of the original error at recorder.py:156. -/
def sessionRun (store : List Episode) (task plan : String)
    (min_similarity : ℚ) (method : String) (work : WorkResult)
    (trace_path : String) (durationText : String) (nextId now : Int) : SessionOutcome :=
  let failures := find_failures_like store task plan min_similarity method
  match failures with
  | _best :: _ =>
      { traces := [], episodes := [], events := [],
        raised := some (.attributeError "Episode" "failure_kind") }
  | [] =>
      let events0 := ["env_snapshot"]
      match work with
      | .ok =>
          let summary := "Completed in " ++ durationText ++ "s"
          let (tr, ep?, err?) :=
            persistStep task plan events0 "success" summary none store trace_path nextId now
          { traces := [tr], episodes := ep?.toList, events := events0, raised := err? }
      | .raises msg =>
          let failure_kind := classify_failure msg
          let events1 := events0 ++ ["exception"]
          let summary := "Failed in " ++ durationText ++ "s: " ++ msg
          let (tr, ep?, err?) :=
            persistStep task plan events1 "failure" summary (some failure_kind)
              store trace_path nextId now
          { traces := [tr], episodes := ep?.toList, events := events1,
            raised := match err? with
              | some e => some e
              | none => some (.workError msg) }

/-! ## Support lemmas -/

theorem char_toNat_ofNat (n : ℕ) (h : n < 0xD800) : (Char.ofNat n).toNat = n := by
  have hv : n.isValidChar := Or.inl h
  simp only [Char.ofNat, dif_pos hv]
  simp [Char.ofNatAux, Char.toNat, UInt32.toNat, UInt32.ofNat', BitVec.toNat_ofNat]

/-- `str.lower()` maps the ASCII plane into itself. -/
theorem pyLowerChar_ascii {c : Char} (h : c.toNat < 128) : (pyLowerChar c).toNat < 128 := by
  show (if 65 ≤ c.toNat ∧ c.toNat ≤ 90 then Char.ofNat (c.toNat + 32)
    else if 192 ≤ c.toNat ∧ c.toNat ≤ 222 ∧ c.toNat ≠ 215 then Char.ofNat (c.toNat + 32)
    else c).toNat < 128
  split
  · rename_i hc
    rw [char_toNat_ofNat _ (by omega)]
    omega
  · split
    · rename_i hc
      omega
    · exact h

/-- Below `U+0080`, Python's `\w` is exactly `[A-Za-z0-9_]`. -/
theorem pyIsWordChar_ascii {c : Char} (h : c.toNat < 128) :
    pyIsWordChar c = asciiIsWordChar c := by
  unfold pyIsWordChar asciiIsWordChar
  rw [decide_eq_decide]
  omega

/-- Run splitting only inspects the predicate on the list's characters. -/
theorem wordRunsAux_congr (p q : Char → Bool) :
    ∀ (l : List Char) (acc : List Char), (∀ c ∈ l, p c = q c) →
      wordRunsAux p l acc = wordRunsAux q l acc := by
  intro l
  induction l with
  | nil =>
    intro acc _
    rfl
  | cons c rest ih =>
    intro acc hpq
    have hc : p c = q c := hpq c (by simp)
    have hrest : ∀ x ∈ rest, p x = q x := fun x hx => hpq x (by simp [hx])
    unfold wordRunsAux
    rw [hc]
    split
    · exact ih _ hrest
    · split
      · exact ih _ hrest
      · rw [ih _ hrest]

/-- Keys of an `updBy` result: the old keys, plus `k` appended if new. -/
theorem updBy_map_fst {κ β : Type} [DecidableEq κ] (l : List (κ × β)) (k : κ)
    (f : Option β → β) :
    (updBy l k f).map Prod.fst =
      (if k ∈ l.map Prod.fst then l.map Prod.fst else l.map Prod.fst ++ [k]) := by
  induction l with
  | nil =>
    simp [updBy]
  | cons p t ih =>
    obtain ⟨a, b⟩ := p
    show (if a = k then (a, f (some b)) :: t else (a, b) :: updBy t k f).map Prod.fst = _
    by_cases hk : a = k
    · rw [if_pos hk, List.map_cons, List.map_cons,
        if_pos (by simp [List.mem_cons, hk.symm])]
    · rw [if_neg hk, List.map_cons, List.map_cons, ih]
      by_cases hmem : k ∈ t.map Prod.fst
      · rw [if_pos hmem, if_pos (by simp [List.mem_cons, hmem])]
      · rw [if_neg hmem, if_neg ?_, List.cons_append]
        intro hc
        rcases List.mem_cons.mp hc with h | h
        · exact hk h.symm
        · exact hmem h

/-- `updBy` preserves distinctness of keys. -/
theorem updBy_nodup {κ β : Type} [DecidableEq κ] (l : List (κ × β)) (k : κ)
    (f : Option β → β) (h : (l.map Prod.fst).Nodup) :
    ((updBy l k f).map Prod.fst).Nodup := by
  rw [updBy_map_fst]
  split
  · exact h
  · rename_i hmem
    rw [List.nodup_append]
    refine ⟨h, List.nodup_singleton k, ?_⟩
    intro x hx hx'
    rw [List.mem_singleton] at hx'
    exact hmem (hx' ▸ hx)

/-- Any fold of `updBy` updates starting from the empty dict has distinct
keys.  The update functions may depend on the element. -/
theorem foldl_updBy_nodup {κ β α : Type} [DecidableEq κ]
    (key : α → κ) (upd : α → Option β → β) :
    ∀ (xs : List α) (acc : List (κ × β)), ((acc.map Prod.fst).Nodup) →
      (((xs.foldl (fun acc x => updBy acc (key x) (upd x)) acc).map Prod.fst).Nodup) := by
  intro xs
  induction xs with
  | nil =>
    intro acc h
    exact h
  | cons x rest ih =>
    intro acc h
    rw [List.foldl_cons]
    exact ih _ (updBy_nodup acc (key x) (upd x) h)

theorem counter_keys_nodup (toks : List String) :
    ((counter toks).map Prod.fst).Nodup := by
  unfold counter
  exact foldl_updBy_nodup (fun t => t) (fun _ o => o.getD 0 + 1) toks [] (by simp)

/-- Looking the keys of a key-distinct association list back up retrieves
the stored values pointwise: the pattern of the cosine dot product over
the terms of a counter. -/
theorem map_countGet_eq_map_snd :
    ∀ (c : List (String × ℕ)), ((c.map Prod.fst).Nodup) →
      ((c.map Prod.fst).map fun t => countGet c t * countGet c t) =
        c.map fun p => p.2 * p.2 := by
  intro c
  induction c with
  | nil =>
    intro _
    rfl
  | cons p t ih =>
    intro h
    obtain ⟨a, b⟩ := p
    have h' : (a :: t.map Prod.fst).Nodup := h
    rcases List.nodup_cons.mp h' with ⟨hp, ht⟩
    simp only [List.map_cons]
    have hhead : countGet ((a, b) :: t) a = b := by
      unfold countGet
      rw [List.lookup_cons_self]
      rfl
    have htail : (t.map Prod.fst).map
          (fun x => countGet ((a, b) :: t) x * countGet ((a, b) :: t) x) =
        (t.map Prod.fst).map (fun x => countGet t x * countGet t x) := by
      apply List.map_congr_left
      intro x hx
      have hxp : (x == a) = false := by
        rw [beq_eq_false_iff_ne]
        intro hcontra
        exact hp (hcontra ▸ hx)
      unfold countGet
      rw [List.lookup_cons, hxp]
    rw [hhead, htail, ih ht]

/-- An `updBy` fold from the empty dict keeps any property that holds of
fresh and of updated entries. -/
theorem updBy_pred {κ β : Type} [DecidableEq κ] (P : κ × β → Prop)
    (l : List (κ × β)) (k : κ) (f : Option β → β)
    (hl : ∀ p ∈ l, P p) (hnew : P (k, f none))
    (hupd : ∀ v, P (k, v) → P (k, f (some v))) :
    ∀ p ∈ updBy l k f, P p := by
  induction l with
  | nil =>
    intro p hp
    simp only [updBy, List.mem_singleton] at hp
    exact hp ▸ hnew
  | cons q t ih =>
    obtain ⟨a, b⟩ := q
    intro p hp
    have hp' : p ∈ (if a = k then (a, f (some b)) :: t else (a, b) :: updBy t k f) := hp
    by_cases hk : a = k
    · rw [if_pos hk] at hp'
      rcases List.mem_cons.mp hp' with h | h
      · subst h
        subst hk
        exact hupd b (hl (a, b) (by simp))
      · exact hl p (by simp [h])
    · rw [if_neg hk] at hp'
      rcases List.mem_cons.mp hp' with h | h
      · exact hl p (by simp [h])
      · exact ih (fun r hr => hl r (by simp [hr])) p h

/-- In a `bestStep` fold every entry's key is its match's episode id. -/
theorem bestFold_key_eq (ms : List EpisodeMatch) :
    ∀ (acc : List (Option Int × EpisodeMatch)),
      (∀ p ∈ acc, p.1 = p.2.episode.id) →
      ∀ p ∈ ms.foldl bestStep acc, p.1 = p.2.episode.id := by
  induction ms with
  | nil =>
    intro acc hacc p hp
    exact hacc p hp
  | cons m rest ih =>
    intro acc hacc p hp
    rw [List.foldl_cons] at hp
    refine ih (bestStep acc m) ?_ p hp
    apply updBy_pred (fun p => p.1 = p.2.episode.id) acc m.episode.id _ hacc
    · show m.episode.id = (bestVal m none).episode.id
      simp [bestVal]
    · intro v hv
      show m.episode.id = (if v.similarity < m.similarity then m else v).episode.id
      split
      · rfl
      · exact hv

/-- `updBy` dominance: existing entries keep their key and can only gain
similarity under a `bestStep`-style update. -/
theorem bestVal_ge_old (m cur : EpisodeMatch) :
    cur.similarity ≤ (bestVal m (some cur)).similarity := by
  show cur.similarity ≤ (if cur.similarity < m.similarity then m else cur).similarity
  split
  · rename_i hlt
    exact le_of_lt hlt
  · exact le_refl _

theorem bestVal_ge_new (m cur : EpisodeMatch) :
    m.similarity ≤ (bestVal m (some cur)).similarity := by
  show m.similarity ≤ (if cur.similarity < m.similarity then m else cur).similarity
  split
  · exact le_refl _
  · rename_i hnlt
    exact le_of_not_lt hnlt

theorem bestStep_preserves (acc : List (Option Int × EpisodeMatch)) (m : EpisodeMatch) :
    ∀ p ∈ acc, ∃ q ∈ bestStep acc m, q.1 = p.1 ∧ p.2.similarity ≤ q.2.similarity := by
  unfold bestStep
  induction acc with
  | nil =>
    intro p hp
    simp at hp
  | cons r t ih =>
    obtain ⟨a, b⟩ := r
    intro p hp
    show ∃ q ∈ (if a = m.episode.id then (a, bestVal m (some b)) :: t
      else (a, b) :: updBy t m.episode.id (bestVal m)), q.1 = p.1 ∧
      p.2.similarity ≤ q.2.similarity
    by_cases hk : a = m.episode.id
    · rw [if_pos hk]
      rcases List.mem_cons.mp hp with h | h
      · subst h
        exact ⟨(a, bestVal m (some b)), by simp, rfl, bestVal_ge_old m b⟩
      · exact ⟨p, by simp [h], rfl, le_refl _⟩
    · rw [if_neg hk]
      rcases List.mem_cons.mp hp with h | h
      · exact ⟨p, by simp [h], rfl, le_refl _⟩
      · obtain ⟨q, hq, hq1, hq2⟩ := ih p h
        exact ⟨q, by simp [hq], hq1, hq2⟩

/-- `updBy` coverage: after a `bestStep` update some entry has the new
match's id with at least its similarity. -/
theorem bestStep_covers (acc : List (Option Int × EpisodeMatch)) (m : EpisodeMatch) :
    ∃ q ∈ bestStep acc m, q.1 = m.episode.id ∧ m.similarity ≤ q.2.similarity := by
  unfold bestStep
  induction acc with
  | nil =>
    exact ⟨(m.episode.id, m), by simp [updBy, bestVal], rfl, le_refl _⟩
  | cons r t ih =>
    obtain ⟨a, b⟩ := r
    show ∃ q ∈ (if a = m.episode.id then (a, bestVal m (some b)) :: t
      else (a, b) :: updBy t m.episode.id (bestVal m)), q.1 = m.episode.id ∧
      m.similarity ≤ q.2.similarity
    by_cases hk : a = m.episode.id
    · rw [if_pos hk]
      exact ⟨(a, bestVal m (some b)), by simp, hk, bestVal_ge_new m b⟩
    · rw [if_neg hk]
      obtain ⟨q, hq, hq1, hq2⟩ := ih
      exact ⟨q, by simp [hq], hq1, hq2⟩

/-- Entries of the dict stay dominated through the rest of the fold. -/
theorem foldPreserve (ms : List EpisodeMatch) :
    ∀ (acc : List (Option Int × EpisodeMatch)) (p : Option Int × EpisodeMatch), p ∈ acc →
      ∃ q ∈ ms.foldl bestStep acc, q.1 = p.1 ∧ p.2.similarity ≤ q.2.similarity := by
  induction ms with
  | nil =>
    intro acc p hp
    exact ⟨p, hp, rfl, le_refl _⟩
  | cons m rest ih =>
    intro acc p hp
    rw [List.foldl_cons]
    obtain ⟨q, hq, hq1, hq2⟩ := bestStep_preserves acc m p hp
    obtain ⟨q', hq', hq'1, hq'2⟩ := ih (bestStep acc m) q hq
    exact ⟨q', hq', hq'1.trans hq1, hq2.trans hq'2⟩

/-- Fold dominance: every candidate is dominated by some dict entry. -/
theorem bestFold_dominates (ms : List EpisodeMatch) :
    ∀ (acc : List (Option Int × EpisodeMatch)) (c : EpisodeMatch), c ∈ ms →
      ∃ q ∈ ms.foldl bestStep acc, q.1 = c.episode.id ∧ c.similarity ≤ q.2.similarity := by
  induction ms with
  | nil =>
    intro acc c hc
    simp at hc
  | cons m rest ih =>
    intro acc c hc
    rw [List.foldl_cons]
    rcases List.mem_cons.mp hc with h | h
    · subst h
      obtain ⟨q, hq, hq1, hq2⟩ := bestStep_covers acc c
      -- push the dominating entry through the rest of the fold
      obtain ⟨q', hq', hq'1, hq'2⟩ := foldPreserve rest (bestStep acc c) q hq
      exact ⟨q', hq', hq'1.trans hq1, hq2.trans hq'2⟩
    · exact ih (bestStep acc m) c h

theorem fround_zero : FP.fround 0 = 0 := by
  simp [FP.fround]

theorem fround_one : FP.fround 1 = 1 := by decide

/-- The squared-magnitude integer `sum(v**2 for v in counts.values())` of
a string's token counter (store.py:73). -/
def sqCountSum (x : String) : ℕ :=
  ((counter (tokenize x)).map fun p => p.2 ^ 2).sum

/-- For `cosine_similarity_pure x x` the dot product equals the squared
magnitude, so the whole computation reduces to `S / (√S · √S)` in
floating point. -/
theorem cosine_self (x : String) (hne : tokenize x ≠ []) :
    cosine_similarity_pure x x =
      (if FP.fsqrt (FP.natToF (sqCountSum x)) = 0 then 0
       else FP.fdiv (FP.natToF (sqCountSum x))
         (FP.fmul (FP.fsqrt (FP.natToF (sqCountSum x)))
           (FP.fsqrt (FP.natToF (sqCountSum x))))) := by
  have hnd := counter_keys_nodup (tokenize x)
  have hdot : ((((counter (tokenize x)).map Prod.fst ++
        (counter (tokenize x)).map Prod.fst).dedup).map
      (fun t => countGet (counter (tokenize x)) t * countGet (counter (tokenize x)) t)).sum
      = sqCountSum x := by
    have hperm : List.Perm (((counter (tokenize x)).map Prod.fst ++
        (counter (tokenize x)).map Prod.fst).dedup)
        ((counter (tokenize x)).map Prod.fst) := by
      apply (List.perm_ext_iff_of_nodup (List.nodup_dedup _) hnd).mpr
      intro a
      simp [List.mem_dedup]
    rw [(hperm.map _).sum_eq, map_countGet_eq_map_snd _ hnd]
    unfold sqCountSum
    congr 1
    apply List.map_congr_left
    intro p _
    rw [pow_two]
  unfold cosine_similarity_pure
  rw [if_neg (by simp [List.isEmpty_iff, hne])]
  show (if FP.fsqrt (FP.natToF (sqCountSum x)) = 0 ∨ FP.fsqrt (FP.natToF (sqCountSum x)) = 0
      then 0
      else FP.fdiv
        (FP.natToF ((((counter (tokenize x)).map Prod.fst ++
          (counter (tokenize x)).map Prod.fst).dedup).map
            (fun t => countGet (counter (tokenize x)) t *
              countGet (counter (tokenize x)) t)).sum)
        (FP.fmul (FP.fsqrt (FP.natToF (sqCountSum x)))
          (FP.fsqrt (FP.natToF (sqCountSum x))))) = _
  rw [hdot]
  simp only [or_self]

theorem insertSorted_perm {α : Type} (le : α → α → Bool) (x : α) :
    ∀ l : List α, List.Perm (insertSorted le x l) (x :: l) := by
  intro l
  induction l with
  | nil =>
    exact List.Perm.refl _
  | cons y t ih =>
    show List.Perm (if le x y then x :: y :: t else y :: insertSorted le x t) (x :: y :: t)
    split
    · exact List.Perm.refl _
    · exact (ih.cons y).trans (List.Perm.swap x y t)

theorem sortBy_perm {α : Type} (le : α → α → Bool) :
    ∀ l : List α, List.Perm (sortBy le l) l := by
  intro l
  induction l with
  | nil =>
    exact List.Perm.refl _
  | cons x t ih =>
    exact (insertSorted_perm le x (sortBy le t)).trans (ih.cons x)

theorem insertSorted_pairwise {α : Type} (le : α → α → Bool)
    (htrans : ∀ a b c, le a b = true → le b c = true → le a c = true)
    (htot : ∀ a b, le a b || le b a) (x : α) :
    ∀ l : List α, l.Pairwise (fun a b => le a b = true) →
      (insertSorted le x l).Pairwise (fun a b => le a b = true) := by
  intro l
  induction l with
  | nil =>
    intro _
    show ([x] : List α).Pairwise (fun a b => le a b = true)
    simp
  | cons y t ih =>
    intro hp
    rcases List.pairwise_cons.mp hp with ⟨hy, ht⟩
    show (if le x y then x :: y :: t else y :: insertSorted le x t).Pairwise
      (fun a b => le a b = true)
    split
    · rename_i hxy
      refine List.pairwise_cons.mpr ⟨?_, hp⟩
      intro z hz
      rcases List.mem_cons.mp hz with h | h
      · exact h ▸ hxy
      · exact htrans x y z hxy (hy z h)
    · rename_i hxy
      have hyx : le y x = true := by
        have := htot x y
        rcases Bool.or_eq_true_iff.mp this with h | h
        · exact absurd h hxy
        · exact h
      refine List.pairwise_cons.mpr ⟨?_, ih ht⟩
      intro z hz
      have hz' : z ∈ x :: t := (insertSorted_perm le x t).mem_iff.mp hz
      rcases List.mem_cons.mp hz' with h | h
      · exact h ▸ hyx
      · exact hy z h

theorem sortBy_pairwise {α : Type} (le : α → α → Bool)
    (htrans : ∀ a b c, le a b = true → le b c = true → le a c = true)
    (htot : ∀ a b, le a b || le b a) :
    ∀ l : List α, (sortBy le l).Pairwise (fun a b => le a b = true) := by
  intro l
  induction l with
  | nil =>
    simp [sortBy]
  | cons x t ih =>
    exact insertSorted_pairwise le htrans htot x (sortBy le t) ih

/-- The descending-similarity comparator used to model
`sorted(..., key=..., reverse=True)` is transitive. -/
theorem simLe_trans (a b c : EpisodeMatch) :
    (decide (b.similarity ≤ a.similarity)) = true →
    (decide (c.similarity ≤ b.similarity)) = true →
    (decide (c.similarity ≤ a.similarity)) = true := by
  simp only [decide_eq_true_eq]
  exact fun h1 h2 => le_trans h2 h1

theorem simLe_total (a b : EpisodeMatch) :
    (decide (b.similarity ≤ a.similarity)) || (decide (a.similarity ≤ b.similarity)) := by
  rcases le_total a.similarity b.similarity with h | h <;> simp [h]

/-! ## Claim theorems -/

/-- C1.  Claim: a gate-passing session whose work raises inserts exactly
one Episode with `outcome="failure"` and a non-null `failure_kind`.  What
the code does instead: the trace file is written (with the classified
`failure_kind` in its JSON), but `record_episode` is called with the
keyword argument `failure_kind` that it does not declare (store.py:92 vs
recorder.py:185-193), so the call raises `TypeError`, no Episode row is
inserted, and the `TypeError` — not the caller's own error — propagates. -/
theorem failed_session_trace_only_insert_raises
    (store : List Episode) (task plan : String) (min_similarity : ℚ) (method : String)
    (msg trace_path durationText : String) (nextId now : Int)
    (h : find_failures_like store task plan min_similarity method = []) :
    sessionRun store task plan min_similarity method (.raises msg)
        trace_path durationText nextId now =
      { traces := [{ task := task, plan := plan, outcome := "failure",
                     failure_kind := some (classify_failure msg),
                     summary := "Failed in " ++ durationText ++ "s: " ++ msg,
                     events := ["env_snapshot", "exception"] }],
        episodes := [],
        events := ["env_snapshot", "exception"],
        raised := some (.typeError "record_episode" "failure_kind") } := by
  have hkw : kwargsAccepted record_episode_params
      ["task", "plan", "outcome", "summary", "trace_path", "failure_kind", "db_path"]
      = false := by decide
  unfold sessionRun
  rw [h]
  simp [persistStep, hkw]

/-- C1 witness: the repository's own failing test input
(`tests/test_recorder.py:test_block_on_repeat_failure`, first run):
empty store, task `"t"`, plan `"p"`, work raising `ValueError("boom")`. -/
theorem failed_session_trace_only_insert_raises_witness :
    find_failures_like [] "t" "p" (8/10) "fuzzy" = [] ∧
    sessionRun [] "t" "p" (8/10) "fuzzy" (.raises "boom") "trace-1.json" "0.01" 1 0 =
      { traces := [{ task := "t", plan := "p", outcome := "failure",
                     failure_kind := some (classify_failure "boom"),
                     summary := "Failed in " ++ "0.01" ++ "s: " ++ "boom",
                     events := ["env_snapshot", "exception"] }],
        episodes := [],
        events := ["env_snapshot", "exception"],
        raised := some (.typeError "record_episode" "failure_kind") } :=
  ⟨by decide,
   failed_session_trace_only_insert_raises [] "t" "p" (8/10) "fuzzy" "boom"
     "trace-1.json" "0.01" 1 0 (by decide)⟩

/-- C2.  Claim: a non-empty gate-check match list makes the session raise
`BlockedPlanError` carrying the best similarity, prior failure kind and
advice, with no trace file and no events.  What the code does instead: no
trace file is written and no event is buffered, but recorder.py:121 reads
`best_match.episode.failure_kind`, an attribute the `Episode` model
(store.py:16-24) does not declare, so `AttributeError` — not
`BlockedPlanError` — is raised. -/
theorem blocked_session_attribute_error
    (store : List Episode) (task plan : String) (min_similarity : ℚ) (method : String)
    (work : WorkResult) (trace_path durationText : String) (nextId now : Int)
    (h : find_failures_like store task plan min_similarity method ≠ []) :
    episodeFields.contains "failure_kind" = false ∧
    sessionRun store task plan min_similarity method work
        trace_path durationText nextId now =
      { traces := [], episodes := [], events := [],
        raised := some (.attributeError "Episode" "failure_kind") } := by
  refine ⟨by decide, ?_⟩
  obtain ⟨m, rest, hcons⟩ := List.exists_cons_of_ne_nil h
  unfold sessionRun
  rw [hcons]

/-- The one-failure store for the C2 witness: a failing episode recorded
directly through the store API for task `"t"`, plan `"p"`. -/
def witnessStore : List Episode :=
  (record_episode [] "t" "p" "failure" "Failed in 0.01s: boom" "a.json" 1 0).1

/-- C2 witness: with a stored failure for the same (task, plan), opening
a session on `("t", "p")` hits the exact-signature gate and raises
`AttributeError`. -/
theorem blocked_session_attribute_error_witness :
    find_failures_like witnessStore "t" "p" (8/10) "exact" ≠ [] ∧
    (episodeFields.contains "failure_kind" = false ∧
     sessionRun witnessStore "t" "p" (8/10) "exact" .ok "trace-2.json" "0.01" 2 0 =
       { traces := [], episodes := [], events := [],
         raised := some (.attributeError "Episode" "failure_kind") }) :=
  ⟨by decide,
   blocked_session_attribute_error witnessStore "t" "p" (8/10) "exact" .ok
     "trace-2.json" "0.01" 2 0 (by decide)⟩

/-- C3.  Claim: a gate-passing session whose work returns normally writes
one trace file, inserts one Episode with `outcome="success"` and
`failure_kind=null`, and raises nothing.  What the code does instead: the
trace file is written (with `outcome="success"`, `failure_kind=null`),
but `_persist` then calls `record_episode` with the undeclared keyword
argument `failure_kind` (recorder.py:185-193 vs store.py:92), so no
Episode is inserted and a `TypeError` reaches the caller. -/
theorem success_session_trace_only_insert_raises
    (store : List Episode) (task plan : String) (min_similarity : ℚ) (method : String)
    (trace_path durationText : String) (nextId now : Int)
    (h : find_failures_like store task plan min_similarity method = []) :
    sessionRun store task plan min_similarity method .ok
        trace_path durationText nextId now =
      { traces := [{ task := task, plan := plan, outcome := "success",
                     failure_kind := none,
                     summary := "Completed in " ++ durationText ++ "s",
                     events := ["env_snapshot"] }],
        episodes := [],
        events := ["env_snapshot"],
        raised := some (.typeError "record_episode" "failure_kind") } := by
  have hkw : kwargsAccepted record_episode_params
      ["task", "plan", "outcome", "summary", "trace_path", "failure_kind", "db_path"]
      = false := by decide
  unfold sessionRun
  rw [h]
  simp [persistStep, hkw]

/-- C3 witness: the repository's own passing-work test input
(`tests/test_recorder.py:test_trace_written`): empty store, task `"t2"`,
plan `"p2"`, work completing normally. -/
theorem success_session_trace_only_insert_raises_witness :
    find_failures_like [] "t2" "p2" (8/10) "fuzzy" = [] ∧
    sessionRun [] "t2" "p2" (8/10) "fuzzy" .ok "trace-3.json" "0.02" 1 0 =
      { traces := [{ task := "t2", plan := "p2", outcome := "success",
                     failure_kind := none,
                     summary := "Completed in " ++ "0.02" ++ "s",
                     events := ["env_snapshot"] }],
        episodes := [],
        events := ["env_snapshot"],
        raised := some (.typeError "record_episode" "failure_kind") } :=
  ⟨by decide,
   success_session_trace_only_insert_raises [] "t2" "p2" (8/10) "fuzzy"
     "trace-3.json" "0.02" 1 0 (by decide)⟩

/-- C4 counterexample.  `hash_signature` feeds `task.encode()` then
`plan.encode()` into one SHA-256 object, i.e. it hashes the byte
concatenation, so the distinct pairs `("ab", "c")` and `("a", "bc")`
collide: per-pair injectivity fails. -/
theorem hash_signature_not_injective :
    hash_signature "ab" "c" = hash_signature "a" "bc" ∧
    (("ab", "c") : String × String) ≠ ("a", "bc") := by
  constructor
  · show SHA256.hexDigest (SHA256.sha256 (pyEncode "ab" ++ pyEncode "c")) = _
    have henc : pyEncode "ab" ++ pyEncode "c" = pyEncode "a" ++ pyEncode "bc" := by decide
    rw [henc]
    rfl
  · decide

/-- C4 amended.  `hash_signature` is deterministic and content-addressed
on the byte concatenation `utf8(task) ++ utf8(plan)`: any two pairs with
the same concatenation — equal pairs in particular — receive the same
signature.  (Distinct pairs with equal concatenation therefore collide,
refuting per-pair injectivity; see `hash_signature_not_injective`.) -/
theorem hash_signature_content_addressed (t1 p1 t2 p2 : String)
    (h : pyEncode t1 ++ pyEncode p1 = pyEncode t2 ++ pyEncode p2) :
    hash_signature t1 p1 = hash_signature t2 p2 := by
  unfold hash_signature
  rw [h]

/-- C4 witness: the content-addressing theorem applied at the colliding
concatenations of `("ab", "c")` and `("a", "bc")`. -/
theorem hash_signature_content_addressed_witness :
    hash_signature "ab" "c" = hash_signature "a" "bc" :=
  hash_signature_content_addressed "ab" "c" "a" "bc" (by decide)

/-- C5 counterexample.  The message `"timeout invalid unauthorized"`
matches a PERMISSION pattern (`"unauthorized"`) and a VALIDATION pattern
(`"invalid"`), yet is classified TIMEOUT, because it also matches a
TIMEOUT pattern and that category is checked first: the claim's
unqualified "in particular a message matching both a PERMISSION pattern
and a VALIDATION pattern is classified PERMISSION" is false as stated. -/
theorem classify_perm_and_valid_not_permission :
    matchesAny permissionPatterns (pyLower "timeout invalid unauthorized") = true ∧
    matchesAny validationPatterns (pyLower "timeout invalid unauthorized") = true ∧
    classify_failure "timeout invalid unauthorized" = "TIMEOUT" ∧
    classify_failure "timeout invalid unauthorized" ≠ "PERMISSION" := by decide

/-- C5 amended.  `classify_failure` lowercases the message and returns
the first category, in the order TIMEOUT, PERMISSION, VALIDATION,
NETWORK, NOT_FOUND, LOGIC, with a matching pattern, `"UNKNOWN"` when none
match; in particular a message matching both a PERMISSION and a
VALIDATION pattern — *and no TIMEOUT pattern* — is classified
PERMISSION; the result always lies in the seven-kind set. -/
theorem classify_first_match (msg : String) :
    (classify_failure msg =
      (if matchesAny timeoutPatterns (pyLower msg) then "TIMEOUT"
       else if matchesAny permissionPatterns (pyLower msg) then "PERMISSION"
       else if matchesAny validationPatterns (pyLower msg) then "VALIDATION"
       else if matchesAny networkPatterns (pyLower msg) then "NETWORK"
       else if matchesAny notFoundPatterns (pyLower msg) then "NOT_FOUND"
       else if matchesAny logicPatterns (pyLower msg) then "LOGIC"
       else "UNKNOWN")) ∧
    (matchesAny timeoutPatterns (pyLower msg) = false →
      matchesAny permissionPatterns (pyLower msg) = true →
      classify_failure msg = "PERMISSION") ∧
    classify_failure msg ∈
      ["TIMEOUT", "PERMISSION", "VALIDATION", "NETWORK", "NOT_FOUND", "LOGIC", "UNKNOWN"] := by
  have heq : classify_failure msg =
      (if matchesAny timeoutPatterns (pyLower msg) then "TIMEOUT"
       else if matchesAny permissionPatterns (pyLower msg) then "PERMISSION"
       else if matchesAny validationPatterns (pyLower msg) then "VALIDATION"
       else if matchesAny networkPatterns (pyLower msg) then "NETWORK"
       else if matchesAny notFoundPatterns (pyLower msg) then "NOT_FOUND"
       else if matchesAny logicPatterns (pyLower msg) then "LOGIC"
       else "UNKNOWN") := rfl
  refine ⟨heq, ?_, ?_⟩
  · intro h1 h2
    rw [heq]
    simp [h1, h2]
  · rw [heq]
    repeat' split
    all_goals simp

/-- C5 witness: a message matching PERMISSION and VALIDATION patterns but
no TIMEOUT pattern, classified PERMISSION by the first-match rule. -/
theorem classify_first_match_witness :
    classify_failure "unauthorized invalid" = "PERMISSION" :=
  (classify_first_match "unauthorized invalid").2.1 (by decide) (by decide)

/-- C6.  Every list `find_failures_like` returns has pairwise-distinct
episode ids (the dedup dict keys), is sorted descending by similarity,
and dominates every pre-deduplication candidate from the two phases: some
returned match carries the same episode id with at least that
candidate's similarity — merged duplicates keep the higher score. -/
theorem find_failures_like_dedup_sorted (store : List Episode) (task plan : String)
    (min_similarity : ℚ) (method : String) :
    ((find_failures_like store task plan min_similarity method).map
      (fun m => m.episode.id)).Nodup ∧
    (find_failures_like store task plan min_similarity method).Pairwise
      (fun x y => y.similarity ≤ x.similarity) ∧
    ∀ c ∈ candidateMatches store task plan min_similarity method,
      ∃ m ∈ find_failures_like store task plan min_similarity method,
        m.episode.id = c.episode.id ∧ c.similarity ≤ m.similarity := by
  unfold find_failures_like
  set ms := candidateMatches store task plan min_similarity method with hms
  set best := ms.foldl bestStep [] with hbest
  have hkeyeq : ∀ p ∈ best, p.1 = p.2.episode.id := bestFold_key_eq ms [] (by simp)
  have hkeysnd : best.map Prod.fst = best.map (fun p => p.2.episode.id) :=
    List.map_congr_left hkeyeq
  have hnodup : ((best.map Prod.snd).map (fun m => m.episode.id)).Nodup := by
    rw [List.map_map]
    show (best.map fun p => p.2.episode.id).Nodup
    rw [← hkeysnd, hbest]
    exact foldl_updBy_nodup (fun m => m.episode.id) bestVal ms [] (by simp)
  have hperm := sortBy_perm (fun x y : EpisodeMatch => decide (y.similarity ≤ x.similarity))
    (best.map Prod.snd)
  refine ⟨?_, ?_, ?_⟩
  · exact ((hperm.map (fun m => m.episode.id)).nodup_iff).mpr hnodup
  · have hp := sortBy_pairwise (fun x y : EpisodeMatch => decide (y.similarity ≤ x.similarity))
      simLe_trans simLe_total (best.map Prod.snd)
    exact hp.imp (fun h => of_decide_eq_true h)
  · intro c hc
    obtain ⟨q, hq, hq1, hq2⟩ := bestFold_dominates ms [] c hc
    refine ⟨q.2, ?_, ?_, hq2⟩
    · exact hperm.mem_iff.mpr (List.mem_map_of_mem Prod.snd hq)
    · rw [← hkeyeq q hq]
      exact hq1

/-- The two-failure store for the C6 witness: the same failing
(task, plan) recorded twice, ids 1 and 2. -/
def witnessStore2 : List Episode :=
  (record_episode (record_episode [] "t" "p" "failure" "s1" "a.json" 1 0).1
    "t" "p" "failure" "s2" "b.json" 2 0).1

/-- C6 witness: the dominance clause applied to the phase-1 candidate for
episode 1 in a store holding two identical failures. -/
theorem find_failures_like_dedup_sorted_witness :
    (⟨(record_episode [] "t" "p" "failure" "s1" "a.json" 1 0).2, 1⟩ : EpisodeMatch) ∈
      candidateMatches witnessStore2 "t" "p" (8/10) "exact" ∧
    ∃ m ∈ find_failures_like witnessStore2 "t" "p" (8/10) "exact",
      m.episode.id = (⟨(record_episode [] "t" "p" "failure" "s1" "a.json" 1 0).2, 1⟩ :
        EpisodeMatch).episode.id ∧
      (⟨(record_episode [] "t" "p" "failure" "s1" "a.json" 1 0).2, 1⟩ :
        EpisodeMatch).similarity ≤ m.similarity :=
  ⟨by decide,
   (find_failures_like_dedup_sorted witnessStore2 "t" "p" (8/10) "exact").2.2
     _ (by decide)⟩

/-- C7 counterexample.  `"a b"` tokenizes to two tokens, yet
`cosine_similarity_pure "a b" "a b"` is `0.9999999999999998`, not `1.0`:
the magnitudes are the double `sqrt(2) = 1.4142135623730951`, their
product rounds to `2.0000000000000004`, and `2` divided by that rounds
to just below `1`.  The claim's `cosine_similarity(x, x) == 1.0` is
false as stated for the floating-point code. -/
theorem cosine_self_not_one :
    tokenize "a b" ≠ [] ∧
    cosine_similarity_pure "a b" "a b" = (4503599627370495 : ℚ) / 4503599627370496 ∧
    cosine_similarity_pure "a b" "a b" ≠ 1 := by decide

/-- C7 amended.  `cosine_similarity_pure` returns `0.0` whenever either
argument tokenizes to an empty token list (in particular for an empty
first argument and any second argument); and `cosine(x, x)` is exactly
`1.0` whenever the float square of the magnitude `√S` reproduces `S`
exactly — e.g. for single-token strings — where `S` is the squared
count sum; for other `x` the result can fall below `1.0`
(see `cosine_self_not_one`). -/
theorem cosine_empty_zero_and_self_one :
    (∀ x y : String, tokenize x = [] ∨ tokenize y = [] →
      cosine_similarity_pure x y = 0) ∧
    (∀ x : String, tokenize x ≠ [] →
      FP.fmul (FP.fsqrt (FP.natToF (sqCountSum x))) (FP.fsqrt (FP.natToF (sqCountSum x)))
        = FP.natToF (sqCountSum x) →
      FP.natToF (sqCountSum x) ≠ 0 →
      cosine_similarity_pure x x = 1) := by
  constructor
  · intro x y hxy
    unfold cosine_similarity_pure
    rcases hxy with h | h
    · rw [if_pos (Or.inl (by simp [h]))]
    · rw [if_pos (Or.inr (by simp [h]))]
  · intro x hne hexact hnz
    rw [cosine_self x hne]
    have hm : FP.fsqrt (FP.natToF (sqCountSum x)) ≠ 0 := by
      intro h0
      rw [h0] at hexact
      have hz : FP.fmul 0 0 = 0 := by
        show FP.fround (0 * 0) = 0
        rw [mul_zero]
        exact fround_zero
      rw [hz] at hexact
      exact hnz hexact.symm
    rw [if_neg hm, hexact]
    show FP.fdiv (FP.natToF (sqCountSum x)) (FP.natToF (sqCountSum x)) = 1
    unfold FP.fdiv
    rw [if_neg hnz, div_self hnz]
    exact fround_one

/-- C7 witness: the empty first argument gives `0.0`, and the
single-token string `"a"` (whose magnitude arithmetic is exact) gives
exactly `1.0`. -/
theorem cosine_empty_zero_and_self_one_witness :
    cosine_similarity_pure "" "anything" = 0 ∧ cosine_similarity_pure "a" "a" = 1 :=
  ⟨cosine_empty_zero_and_self_one.1 "" "anything" (Or.inl (by decide)),
   cosine_empty_zero_and_self_one.2 "a" (by decide) (by decide) (by decide)⟩

/-- C8 counterexample.  Python's `\w` is Unicode-aware: `tokenize "é"`
returns the token `["é"]`, while the claimed `[A-Za-z0-9_]`-runs
tokenizer returns no token at all. -/
theorem tokenize_unicode_counterexample :
    tokenize "é" = ["é"] ∧ claimTokenize "é" = [] ∧
    tokenize "é" ≠ claimTokenize "é" := by decide

/-- C8 amended.  On ASCII input — where `\w` coincides with
`[A-Za-z0-9_]` — the tokenizer produces exactly the maximal
`[A-Za-z0-9_]` runs of the lowercased input, in order; on non-ASCII
input `\w` also matches further Unicode word characters (see
`tokenize_unicode_counterexample`). -/
theorem tokenize_ascii_matches_claim (s : String)
    (h : ∀ c ∈ s.data, c.toNat < 128) :
    tokenize s = claimTokenize s := by
  unfold tokenize claimTokenize wordRuns pyLower
  congr 1
  apply wordRunsAux_congr
  intro c hc
  obtain ⟨c0, hc0, rfl⟩ := List.mem_map.mp hc
  exact pyIsWordChar_ascii (pyLowerChar_ascii (h c0 hc0))

/-- C8 witness: an ASCII sentence with punctuation, caps, digits and
underscore. -/
theorem tokenize_ascii_matches_claim_witness :
    tokenize "Hello, World_42!" = claimTokenize "Hello, World_42!" :=
  tokenize_ascii_matches_claim "Hello, World_42!" (by decide)

/-- C9 counterexample.  The fuzzy method is not symmetric:
`SequenceMatcher(None, "ab", "bacb").ratio()` is `2/3` (the greedy
matcher finds the two-character block `"ab"`), while the swapped order
gives only `1/3` (it finds a single character), as floats
`0.6666666666666666` versus `0.3333333333333333`. -/
theorem fuzzy_not_symmetric :
    plan_similarity "ab" "bacb" "fuzzy" ≠ plan_similarity "bacb" "ab" "fuzzy" ∧
    plan_similarity "ab" "bacb" "fuzzy" = (6004799503160661 : ℚ) / 9007199254740992 ∧
    plan_similarity "bacb" "ab" "fuzzy" = (6004799503160661 : ℚ) / 18014398509481984 := by
  decide

/-- C9 amended.  The fuzzy score is `2·M/T` with the combined length `T`
symmetric in the arguments, so swapping the arguments preserves the
score exactly when the greedy matcher finds the same total matched-block
size `M` in both orders; in general the totals differ and symmetry fails
(see `fuzzy_not_symmetric`). -/
theorem fuzzy_symmetric_when_totals_agree (a b : String)
    (h : seqMatchTotal a.data b.data = seqMatchTotal b.data a.data) :
    plan_similarity a b "fuzzy" = plan_similarity b a "fuzzy" := by
  show sequenceMatcherRatio a b = sequenceMatcherRatio b a
  unfold sequenceMatcherRatio
  rw [h, Nat.add_comm a.data.length b.data.length]

/-- C9 witness: `"ab"` against `"ba"` — one matched character in either
order, score `1/2` both ways. -/
theorem fuzzy_symmetric_when_totals_agree_witness :
    plan_similarity "ab" "ba" "fuzzy" = plan_similarity "ba" "ab" "fuzzy" :=
  fuzzy_symmetric_when_totals_agree "ab" "ba" (by decide)

/-- C10.  `plan_similarity` dispatches on the method string with a
catch-all `else`: every method other than `"exact"` and `"cosine"` —
including misspellings — silently gets the fuzzy `SequenceMatcher`
ratio; no error path exists. -/
theorem plan_similarity_default_fuzzy (method a b : String)
    (h1 : method ≠ "exact") (h2 : method ≠ "cosine") :
    plan_similarity a b method = sequenceMatcherRatio a b := by
  unfold plan_similarity
  rw [if_neg h1, if_neg h2]

/-- C10 witness: the misspelled method `"fuzy"` falls through to the
fuzzy ratio. -/
theorem plan_similarity_default_fuzzy_witness :
    plan_similarity "ab" "ba" "fuzy" = sequenceMatcherRatio "ab" "ba" :=
  plan_similarity_default_fuzzy "fuzy" "ab" "ba" (by decide) (by decide)

end Autopsy
